import Mathlib

/-!
Verification model of the vox-note bot's request admission and answer
resolution core (the main bot module).  Pure JavaScript functions are
embedded as Lean functions over `String`, `List` and an exact-fraction
score type; the request governor (`processWithTimeout` /
`gracefulShutdown`) is embedded as a small-step state machine; the
Supabase knowledge store is embedded as a list of rows, with explicit
fault injection for collaborator failures.  All strings in play are
ASCII, where JavaScript's `toLowerCase`, `trim`, whitespace splitting and
UTF-16 `length` agree with the per-`Char` embeddings used here.
-/

/-- Test `charsPre sub s`: `sub` is a prefix of `s` (character lists). -/
def charsPre : List Char → List Char → Bool
  | [], _ => true
  | _ :: _, [] => false
  | a :: as, b :: bs => a == b && charsPre as bs

/-- Test `charsSub sub s`: `sub` occurs contiguously inside `s`. -/
def charsSub (sub : List Char) : List Char → Bool
  | [] => charsPre sub []
  | c :: s => charsPre sub (c :: s) || charsSub sub s

/-- JavaScript `s.includes(sub)` for ASCII strings. -/
def strIncludes (s sub : String) : Bool :=
  charsSub sub.data s.data

/-- JavaScript `s.toLowerCase()` for ASCII strings: lower-case every char. -/
def jsToLower (s : String) : String :=
  ⟨s.data.map Char.toLower⟩

/-- JavaScript `s.startsWith(w)`. -/
def jsStartsWith (s w : String) : Bool :=
  charsPre w.data s.data

/-- JavaScript `s.endsWith(w)`. -/
def jsEndsWith (s w : String) : Bool :=
  charsPre w.data.reverse s.data.reverse

/-- Split a character list at every separator character, keeping empty
chunks — JavaScript `split(' ')` semantics for a one-character separator. -/
def splitChars (p : Char → Bool) : List Char → List (List Char)
  | [] => [[]]
  | c :: rest =>
    if p c then [] :: splitChars p rest
    else
      match splitChars p rest with
      | h :: t => (c :: h) :: t
      | [] => [[c]]

/-- JavaScript `s.split(/\s+/)`: per-character whitespace splitting agrees
with the regex split on every token of length ≥ 1 (the regex merges
separator runs where this keeps extra empty tokens, and every call site
filters tokens by a length bound that drops the empty ones). -/
def jsSplitWs (s : String) : List String :=
  (splitChars (fun c => c.isWhitespace) s.data).map (fun l => ⟨l⟩)

/-- JavaScript `s.split(' ')`. -/
def jsSplitSpace (s : String) : List String :=
  (splitChars (fun c => c = ' ') s.data).map (fun l => ⟨l⟩)

/-- JavaScript `s.trim()` (ASCII whitespace). -/
def jsTrim (s : String) : String :=
  ⟨((s.data.dropWhile Char.isWhitespace).reverse.dropWhile Char.isWhitespace).reverse⟩

/-- Scan all suffixes of a list, accepting when the continuation accepts
any of them — the backtracking engine for the `%` wildcard. -/
def pctScan (k : List Char → Bool) : List Char → Bool
  | [] => k []
  | c :: s => k (c :: s) || pctScan k s

/-- SQL `ILIKE` pattern matching: `%` matches any run of characters, `_`
matches one character, other pattern characters match case-insensitively.
Every pattern the bot passes to `.ilike` is already lower-case (the query
is lower-cased first, and the synonym keys are lower-case literals), so
only the target character is case-folded here. -/
def ilikeRun : List Char → List Char → Bool
  | [], s => s.isEmpty
  | p :: ps, s =>
    if p = '%' then pctScan (ilikeRun ps) s
    else if p = '_' then
      match s with
      | [] => false
      | _ :: s' => ilikeRun ps s'
    else
      match s with
      | [] => false
      | c :: s' => (p == c.toLower) && ilikeRun ps s'

/-- Match `target ILIKE pat` on strings. -/
def ilikeMatches (pat target : String) : Bool :=
  ilikeRun pat.data target.data

/-- An exact fraction with positive denominator, not kept in lowest terms:
the value type for the JavaScript floating-point scores.  Every constant
the scorer uses is exactly representable as a double and every comparison
the pipeline makes comes out the same for exact fractions and doubles at
these magnitudes; the one exception, the `0/0 = NaN` score when both
compared strings are empty, is handled explicitly at the filter that
consumes the score. -/
structure Score where
  n : Int
  d : Int
  dpos : 0 < d

/-- Integer score. -/
def Score.ofInt (k : Int) : Score :=
  ⟨k, 1, by omega⟩

/-- Quotient `a / b`, with the `x / 0 = 0` convention; the embedding never
produces a negative denominator. -/
def Score.div (a b : Int) : Score :=
  if h : 0 < b then ⟨a, b, h⟩ else ⟨0, 1, by omega⟩

/-- Sum. -/
def Score.add (x y : Score) : Score :=
  ⟨x.n * y.d + y.n * x.d, x.d * y.d, mul_pos x.dpos y.dpos⟩

/-- Product. -/
def Score.mul (x y : Score) : Score :=
  ⟨x.n * y.n, x.d * y.d, mul_pos x.dpos y.dpos⟩

/-- Complement `1 - x`. -/
def Score.oneSub (x : Score) : Score :=
  ⟨x.d - x.n, x.d, x.dpos⟩

/-- Strict comparison by cross-multiplication (denominators positive). -/
def Score.blt (x y : Score) : Bool :=
  decide (x.n * y.d < y.n * x.d)

/-- Value equality by cross-multiplication. -/
def Score.beq (x y : Score) : Bool :=
  decide (x.n * y.d = y.n * x.d)

/-- The rational value of a score. -/
def scoreToRat (x : Score) : ℚ :=
  (x.n : ℚ) / (x.d : ℚ)

/-- One row of the `knowledge_base` table.  `answer` and `content` are
nullable columns; `question` is modelled non-null (the fuzzy fetch filters
null questions out, and rows with a null question can win no stage that
the claims exercise).  `created_at` is an abstract timestamp; the list
holding the rows is the table order in which unordered Supabase queries
return them (insertion order for an append-only table). -/
structure KBEntry where
  question : String
  answer : Option String
  content : Option String
  created_at : Nat
deriving DecidableEq

/-- JavaScript `a || b` on nullable strings: `a` wins when it is non-null
and non-empty (truthy), otherwise the result is `b` as-is. -/
def jsOrStr (a b : Option String) : Option String :=
  match a with
  | some s => if s = "" then b else some s
  | none => b

/-- JavaScript `a || b || ''` collapsed to a plain string. -/
def jsOrStrD (a b : Option String) : String :=
  match jsOrStr a b with
  | some s => s
  | none => ""

/-- Which stage of `findInSupabase` produced the result (the code logs the
winning stage; `enhancedFindAnswer` reports all of them as source
`knowledge_base`). -/
inductive Stage where
  | exact
  | synonym
  | fuzzy
  | content
deriving DecidableEq

/-- The `source` field of the object `enhancedFindAnswer` returns,
refined by the knowledge-base stage that won. -/
inductive Source where
  | knowledge_base (st : Stage)
  | groq_ai
  | dflt
deriving DecidableEq

/-- Outcome of one stage inside `findInSupabase`: the stage found nothing
and control flows on; or the stage hit a row whose selected field was
null/falsy-null and the surrounding function `return`s that null; or the
stage returned an actual string (possibly empty). -/
inductive StageRes where
  | noMatch
  | nullReturn
  | found (text : String)
deriving DecidableEq

/-- Fault injection for the Supabase collaborator.  The exact stage checks
the query error and `throw`s it, which lands in the function-wide `catch`;
the synonym/fuzzy/content stages destructure only `data`, so an error
there surfaces as `data = null`. -/
structure Faults where
  exactFails : Bool
  synFails : Bool
  fuzzyFails : Bool
  contentFails : Bool
deriving DecidableEq

/-- No collaborator failures. -/
def noFaults : Faults :=
  ⟨false, false, false, false⟩

/-- The `SYNONYM_MAP` object, in source (insertion) order. -/
def SYNONYM_MAP : List (String × List String) :=
  [("hello", ["hi", "hey", "hi there", "hello there", "howdy", "greetings", "yo", "sup"]),
   ("good morning", ["morning", "top of the morning"]),
   ("good afternoon", ["afternoon"]),
   ("good evening", ["evening", "night"]),
   ("help", ["support", "assist", "aid", "guidance", "trouble", "problem", "issue"]),
   ("support", ["customer service", "help desk", "assistance", "tech support"]),
   ("thank you", ["thanks", "thx", "thank you very much", "appreciate it", "cheers", "grateful"]),
   ("bye", ["goodbye", "see you", "farewell", "later", "take care", "cya", "adios"]),
   ("how are you", ["how do you do", "hows it going", "whats up", "how are things", "hows life"]),
   ("what are you", ["who are you", "what is this", "what is this bot"]),
   ("what can you do", ["capabilities", "features", "functions", "abilities", "what do you do"]),
   ("voice", ["speak", "talk", "microphone", "audio", "sound", "voice message"]),
   ("how do i use", ["how to use", "how does this work", "instructions", "tutorial"]),
   ("account", ["login", "sign in", "profile", "user", "credentials"]),
   ("password", ["reset password", "forgot password", "change password", "lost password"]),
   ("price", ["cost", "pricing", "fee", "charge", "subscription", "how much", "costs"]),
   ("free", ["free trial", "no cost", "complimentary", "gratis"]),
   ("error", ["problem", "issue", "bug", "not working", "broken", "failed"]),
   ("not working", ["doesnt work", "not functioning", "broken", "malfunctioning"])]

/-- Tokens of length > 2 after lower-casing and whitespace splitting. -/
def tokensLen3 (s : String) : List String :=
  (jsSplitWs (jsToLower s)).filter (fun w => w.length > 2)

/-- Function `calculateWordOverlap` from the source: the fraction of common tokens
over the LARGER of the two token counts. -/
def calculateWordOverlap (str1 str2 : String) : Score :=
  let words1 := tokensLen3 str1
  let words2 := tokensLen3 str2
  if words1.isEmpty || words2.isEmpty then Score.ofInt 0
  else
    let commonWords := words1.filter
      (fun word => words2.any (fun w2 => strIncludes w2 word || strIncludes word w2))
    Score.div commonWords.length (max words1.length words2.length)

/-- The scoring block of `findInSupabase` (the MatchScorer): the weighted
sum the code computes for one fetched row against the lowered query `q`. -/
def codeScore (q : String) (item : KBEntry) : Score :=
  let question := jsToLower item.question
  let answer := jsOrStrD item.answer item.content
  let exactContains :=
    if strIncludes question q || strIncludes q question then Score.ofInt 1 else Score.ofInt 0
  let wordOverlap := calculateWordOverlap q question
  let startsWithSig :=
    if jsStartsWith q (List.headD (jsSplitSpace question) "") then Score.div 8 10
    else Score.ofInt 0
  let endsWithSig :=
    if jsEndsWith q (List.getLastD (jsSplitSpace question) "") then Score.div 6 10
    else Score.ofInt 0
  let lengthSimilarity :=
    Score.oneSub (Score.div (Nat.dist question.length q.length)
      (max question.length q.length))
  let answerContains :=
    if strIncludes (jsToLower answer) q then Score.div 1 2 else Score.ofInt 0
  ((((((exactContains.mul (Score.ofInt 3)).add
      (wordOverlap.mul (Score.ofInt 2))).add
      (startsWithSig.mul (Score.div 3 2))).add
      (endsWithSig.mul (Score.ofInt 1))).add
      (lengthSimilarity.mul (Score.div 1 2))).add
      (answerContains.mul (Score.div 3 10)))

/-- Modelled from the spec: the MatchScorer as the spec's §4.3 table words
it — six signals, the starts-with / ends-with / answer-contains signals
valued 1 when they fire, and the word-overlap signal the fraction of query
tokens (length > 2) that partially match candidate tokens, with the QUERY
token count as denominator. -/
def specMatchScore (q : String) (item : KBEntry) : Score :=
  let question := jsToLower item.question
  let answer := jsOrStrD item.answer item.content
  let exactContains :=
    if strIncludes question q || strIncludes q question then Score.ofInt 1 else Score.ofInt 0
  let qtokens := tokensLen3 q
  let ctokens := tokensLen3 question
  let wordOverlap :=
    if qtokens.isEmpty then Score.ofInt 0
    else
      Score.div
        (qtokens.filter
          (fun w => ctokens.any (fun w2 => strIncludes w2 w || strIncludes w w2))).length
        qtokens.length
  let startsWithSig :=
    if jsStartsWith q (List.headD (jsSplitSpace question) "") then Score.ofInt 1
    else Score.ofInt 0
  let endsWithSig :=
    if jsEndsWith q (List.getLastD (jsSplitSpace question) "") then Score.ofInt 1
    else Score.ofInt 0
  let lengthSimilarity :=
    Score.oneSub (Score.div (Nat.dist question.length q.length)
      (max question.length q.length))
  let answerContains :=
    if strIncludes (jsToLower answer) q then Score.ofInt 1 else Score.ofInt 0
  ((((((exactContains.mul (Score.ofInt 3)).add
      (wordOverlap.mul (Score.ofInt 2))).add
      (startsWithSig.mul (Score.div 3 2))).add
      (endsWithSig.mul (Score.ofInt 1))).add
      (lengthSimilarity.mul (Score.div 1 2))).add
      (answerContains.mul (Score.div 3 10)))

/-- The amended MatchScorer formula: same six signals and weights
3 / 2 / 1.5 / 1 / 0.5 / 0.3, but the starts-with, ends-with and
answer-contains signals take the values 0.8, 0.6 and 0.5 when they fire,
and the word-overlap fraction is divided by the larger of the two token
counts (`calculateWordOverlap`). -/
def amendedMatchScore (q : String) (item : KBEntry) : Score :=
  let question := jsToLower item.question
  let answer := jsOrStrD item.answer item.content
  let exactContains :=
    if strIncludes question q || strIncludes q question then Score.ofInt 1 else Score.ofInt 0
  let wordOverlap := calculateWordOverlap q question
  let startsWithSig :=
    if jsStartsWith q (List.headD (jsSplitSpace question) "") then Score.div 8 10
    else Score.ofInt 0
  let endsWithSig :=
    if jsEndsWith q (List.getLastD (jsSplitSpace question) "") then Score.div 6 10
    else Score.ofInt 0
  let lengthSimilarity :=
    Score.oneSub (Score.div (Nat.dist question.length q.length)
      (max question.length q.length))
  let answerContains :=
    if strIncludes (jsToLower answer) q then Score.div 1 2 else Score.ofInt 0
  (((((((Score.ofInt 3).mul exactContains).add
      ((Score.ofInt 2).mul wordOverlap)).add
      ((Score.div 3 2).mul startsWithSig)).add
      ((Score.ofInt 1).mul endsWithSig)).add
      ((Score.div 1 2).mul lengthSimilarity)).add
      ((Score.div 3 10).mul answerContains))

/-- Stable insertion into a descending run: `x` goes in front of the first
element it is not strictly below, so earlier-listed elements win ties —
the behaviour of the stable JavaScript `sort((a, b) => b.score - a.score)`. -/
def insertD {α : Type} (gt : α → α → Bool) (x : α) : List α → List α
  | [] => [x]
  | y :: ys => if gt y x then y :: insertD gt x ys else x :: y :: ys

/-- Stable insertion sort (descending under `gt`). -/
def insSortD {α : Type} (gt : α → α → Bool) : List α → List α
  | [] => []
  | x :: xs => insertD gt x (insSortD gt xs)

/-- Comparator of the fuzzy stage: `a` stays before `b` iff
`b.score < a.score`. -/
def rowGt (a b : KBEntry × Score) : Bool :=
  Score.blt b.2 a.2

/-- Comparator of `order('created_at', descending)`: newer rows first,
stable for equal timestamps. -/
def createdGt (a b : KBEntry) : Bool :=
  decide (b.created_at < a.created_at)

/-- The store sorted most-recent-first, as the content-stage query requests. -/
def sortCreatedDesc (store : List KBEntry) : List KBEntry :=
  insSortD createdGt store

/-- Exact stage: first row whose `question` matches the lowered query under
`ILIKE` (the pattern is the raw query, so `%`/`_` in the query act as
wildcards); `limit(1)` keeps the first row in table order. -/
def exactStage (store : List KBEntry) (q : String) : StageRes :=
  match store.find? (fun e => ilikeMatches q e.question) with
  | none => .noMatch
  | some e =>
    match jsOrStr e.answer e.content with
    | some t => .found t
    | none => .nullReturn

/-- Synonym-stage loop body over the synonym map: an entry triggers when
the query IS one of the synonyms (JavaScript `Array.includes` is
membership, not substring) or the query CONTAINS the canonical key; on
trigger the store is re-queried with `%key%`, and a hit `return`s that
row's `answer` field alone (null answer ⇒ the whole lookup returns null). -/
def synGo (store : List KBEntry) (q : String) : List (String × List String) → StageRes
  | [] => .noMatch
  | (k, syns) :: rest =>
    if syns.contains q || strIncludes q k then
      match store.find? (fun e => ilikeMatches ("%" ++ k ++ "%") e.question) with
      | some e =>
        match e.answer with
        | some a => .found a
        | none => .nullReturn
      | none => synGo store q rest
    else synGo store q rest

/-- Synonym stage of `findInSupabase`. -/
def synStage (store : List KBEntry) (q : String) : StageRes :=
  synGo store q SYNONYM_MAP

/-- The code's trigger condition for the synonym stage, as a predicate on
the lowered query. -/
def codeSynTrigger (q : String) : Bool :=
  SYNONYM_MAP.any (fun p => p.2.contains q || strIncludes q p.1)

/-- Modelled from the spec: the claim's trigger condition — the query
lexically matches some VALUE of the synonym table by containment in
either direction. -/
def specSynTrigger (q : String) : Bool :=
  SYNONYM_MAP.any (fun p => p.2.any (fun v => strIncludes q v || strIncludes v q))

/-- Fuzzy-stage fetch: `limit(100)` with no ordering clause — the first
100 rows in table order.  (`not('question', 'is', null)` is vacuous here
since `question` is modelled non-null.) -/
def fuzzyFetch (store : List KBEntry) : List KBEntry :=
  store.take 100

/-- Fetched rows paired with their scores. -/
def fuzzyRows (store : List KBEntry) (q : String) : List (KBEntry × Score) :=
  (fuzzyFetch store).map (fun e => (e, codeScore q e))

/-- The filter `item => item.score > 0.3`.  When both the query and the
question are empty the JavaScript score is `NaN` (a `0/0` inside the
length-similarity signal) and `NaN > 0.3` is false, so such a row is
dropped regardless of the junk value the total-order embedding produces. -/
def keptRows (store : List KBEntry) (q : String) : List (KBEntry × Score) :=
  (fuzzyRows store q).filter
    (fun r => !(q.length == 0 && r.1.question.length == 0) && Score.blt (Score.div 3 10) r.2)

/-- Head of the stable descending sort of the kept rows — the row the
fuzzy stage returns, if any. -/
def fuzzyWinner (store : List KBEntry) (q : String) : Option (KBEntry × Score) :=
  (insSortD rowGt (keptRows store q)).head?

/-- Fuzzy stage of `findInSupabase`. -/
def fuzzyStage (store : List KBEntry) (q : String) : StageRes :=
  match fuzzyWinner store q with
  | none => .noMatch
  | some (e, _) =>
    match jsOrStr e.answer e.content with
    | some t => .found t
    | none => .nullReturn

/-- Content stage: `answer ILIKE %q% OR content ILIKE %q%`, most recent
first, `limit(1)`. -/
def contentStage (store : List KBEntry) (q : String) : StageRes :=
  match (sortCreatedDesc store).find?
      (fun e =>
        (match e.answer with
          | some a => ilikeMatches ("%" ++ q ++ "%") a
          | none => false) ||
        (match e.content with
          | some c => ilikeMatches ("%" ++ q ++ "%") c
          | none => false)) with
  | none => .noMatch
  | some e =>
    match jsOrStr e.answer e.content with
    | some t => .found t
    | none => .nullReturn

/-- Function `findInSupabase`: the four knowledge-store stages in order.  A thrown
exact-stage error is caught by the function-wide handler, which returns
null before any later stage runs; later-stage errors surface as null data
and fall through.  A stage that hits a row with a falsy selected field
`return`s that null, which also ends the function. -/
def findInSupabase (supaOn : Bool) (f : Faults) (store : List KBEntry)
    (query : String) : Option (Stage × String) :=
  if !supaOn then none
  else if f.exactFails then none
  else
    let q := jsToLower (jsTrim query)
    match exactStage store q with
    | .found t => some (.exact, t)
    | .nullReturn => none
    | .noMatch =>
      match (if f.synFails then .noMatch else synStage store q) with
      | .found t => some (.synonym, t)
      | .nullReturn => none
      | .noMatch =>
        match (if f.fuzzyFails then .noMatch else fuzzyStage store q) with
        | .found t => some (.fuzzy, t)
        | .nullReturn => none
        | .noMatch =>
          match (if f.contentFails then .noMatch else contentStage store q) with
          | .found t => some (.content, t)
          | .nullReturn => none
          | .noMatch => none

/-- What `findInSupabase` alone contributes when only its exact stage is
consulted (the value the pipeline reports when every later stage's store
call fails). -/
def exactStageResult (store : List KBEntry) (query : String) : Option (Stage × String) :=
  match exactStage store (jsToLower (jsTrim query)) with
  | .found t => some (.exact, t)
  | _ => none

/-- Query categories of `getDefaultResponse`. -/
inductive QType where
  | greeting
  | question
  | explanation
  | howto
  | general
deriving DecidableEq

/-- JavaScript `\w` (ASCII word character), for the `\b` boundary in
`QUESTION_PATTERNS`. -/
def isWordChar (c : Char) : Bool :=
  c.isAlphanum || c = '_'

/-- Match a word prefix and return the rest, or `none`. -/
def afterPre : List Char → List Char → Option (List Char)
  | [], s => some s
  | _ :: _, [] => none
  | a :: as, b :: bs => if a == b then afterPre as bs else none

/-- Pattern `^word\b` against an already-lowered string. -/
def startsWithWordB (q w : String) : Bool :=
  match afterPre w.data q.data with
  | none => false
  | some [] => true
  | some (c :: _) => !isWordChar c

/-- The interrogative words of the first `QUESTION_PATTERNS` regex. -/
def questionWords : List String :=
  ["what", "who", "where", "when", "why", "how", "can", "is", "are", "do",
   "does", "will", "would", "should", "could"]

/-- The `QUESTION_PATTERNS` array in order: the first matching pattern fixes
the type (so any query starting with an interrogative word — including
`how to ...` — is typed `question` before the how-to pattern is tried). -/
def classifyPattern (q : String) : Option QType :=
  if questionWords.any (startsWithWordB q) then some .question
  else if jsEndsWith q "?" then some .question
  else if ["tell me", "explain", "describe", "show me", "teach me"].any
      (fun p => jsStartsWith q p) then some .explanation
  else if ["how to", "how do i", "steps to", "guide to"].any
      (fun p => jsStartsWith q p) then some .howto
  else none

/-- A JavaScript Promise that has not been awaited: only its eventual
value is carried, but any synchronous use sees the Promise object. -/
structure JsPromise (α : Type) where
  eventual : α

/-- A Promise object is always truthy. -/
def jsPromiseTruthy {α : Type} (_ : JsPromise α) : Bool :=
  true

/-- Template-interpolating a pending Promise renders the object, not its
eventual value. -/
def jsPromiseToString {α : Type} (_ : JsPromise α) : String :=
  "[object Promise]"

/-- Eventual value of `getRelatedSuggestions`: up to three questions that
contain some query token longer than 3 characters, joined with quotes and
commas.  (When Supabase is disabled the promise resolves to null; since
the caller never awaits it, that distinction is unobservable.) -/
def getRelatedSuggestions (store : List KBEntry) (query : String) : Option String :=
  let words := (jsSplitWs query).filter (fun w => w.length > 3)
  if words.isEmpty then none
  else
    let data := (store.filter
      (fun e => words.any (fun w => ilikeMatches ("%" ++ w ++ "%") e.question))).take 3
    if data.isEmpty then none
    else some (String.intercalate ", " (data.map (fun e => "\x22" ++ e.question ++ "\x22")))

/-- Function `getDefaultResponse`: classify the lowered query, build the template
naming the ORIGINAL query, then append the teach-me hint and the related
topics section.  `getRelatedSuggestions(q)` is invoked without `await`:
`suggestions` is a pending Promise, which is truthy, and interpolating it
produces `[object Promise]` — so the section is always appended and never
reflects the store. -/
def getDefaultResponse (store : List KBEntry) (query : String) : String :=
  let q := jsTrim (jsToLower query)
  let queryType0 :=
    match classifyPattern q with
    | some t => t
    | none => .general
  let queryType :=
    if ["hello", "hi", "hey", "good morning", "good afternoon", "good evening"].any
        (fun g => strIncludes q g) then QType.greeting
    else queryType0
  let baseResponse :=
    match queryType with
    | .greeting =>
        "Hello! I\x27m your AI assistant. I don\x27t have specific info about \x22" ++
          query ++ "\x22 yet, but I\x27d love to learn!"
    | .question =>
        "That\x27s a great question about \x22" ++ query ++
          "\x22! I need to learn more about this topic."
    | .explanation =>
        "I\x27d be happy to explain \x22" ++ query ++ "\x22! First, I need to learn about it."
    | .howto =>
        "I can help you with \x22" ++ query ++ "\x22! Let me learn the steps first."
    | .general =>
        "I\x27m still learning about \x22" ++ query ++ "\x22. Would you like to teach me?"
  let suggestions : JsPromise (Option String) := ⟨getRelatedSuggestions store q⟩
  let suggestionText :=
    if jsPromiseTruthy suggestions then
      "\n\n **Related topics:** " ++ jsPromiseToString suggestions
    else ""
  baseResponse ++ "\n\n **Teach me:**\n\x60/add \x22" ++ query ++
    "\x22 || [your answer here]\x60" ++ suggestionText

/-- Function `enhancedFindAnswer`.  `useAI` is the per-user AI-mode flag; `groq` is
the abstracted LLM collaborator: `some a` when Groq is enabled, succeeds
within its budget and returns truthy text `a`, `none` for disabled /
failed / timed-out / empty answers (the retrieved context snippets only
shape `a` and are not modelled separately).  In knowledge-base-first mode
a falsy store answer falls through to the LLM and then to the default
stage; the surrounding `processWithTimeout` wrapper is modelled by the
governor machine below. -/
def enhancedFindAnswer (supaOn : Bool) (store : List KBEntry) (f : Faults)
    (groq : Option String) (useAI : Bool) (query : String) : Source × String :=
  if useAI then
    match groq with
    | some a => (.groq_ai, a)
    | none => (.dflt, getDefaultResponse store query)
  else
    match findInSupabase supaOn f store query with
    | some (st, t) =>
      if t = "" then
        match groq with
        | some a => (.groq_ai, a)
        | none => (.dflt, getDefaultResponse store query)
      else (.knowledge_base st, t)
    | none =>
      match groq with
      | some a => (.groq_ai, a)
      | none => (.dflt, getDefaultResponse store query)

/-- Constant `SAFETY_CONFIG.REQUEST_QUEUE_SIZE`: the concurrency cap the governor
compares `activeRequests` against. -/
def REQUEST_QUEUE_SIZE : Int := 5

/-- What the caller of `processWithTimeout` has received so far. -/
inductive Outcome where
  | pending
  | ok
  | timedOutErr
  | shutdownErr
deriving DecidableEq

/-- Book-keeping for one `processWithTimeout` call: whether the call was
made, whether the wrapped operation's body has begun executing (a slot was
granted), whether the body has finished, and what the caller received.
An operation that fails is accounted exactly like one that succeeds, so
`ok` stands for "settled with the operation's own result or error". -/
structure OpState where
  submitted : Bool
  started : Bool
  finished : Bool
  outcome : Outcome
deriving DecidableEq

/-- A fresh, not-yet-submitted call. -/
def freshOp : OpState :=
  ⟨false, false, false, .pending⟩

/-- Governor state: the module-level `activeRequests`, `isShuttingDown`
and `requestQueue` variables, plus the per-call book-keeping. -/
structure GovState where
  activeRequests : Int
  isShuttingDown : Bool
  queue : List Nat
  ops : Nat → OpState

/-- Pointwise update of the call table. -/
def updOp (f : Nat → OpState) (i : Nat) (o : OpState) : Nat → OpState :=
  fun j => if j = i then o else f j

/-- The governor's initial state. -/
def govInit : GovState :=
  { activeRequests := 0, isShuttingDown := false, queue := [], ops := fun _ => freshOp }

/-- Events at the governor's suspension points.  `submit i` is a call to
`processWithTimeout`; `fireTimeout i` is call `i`'s timer firing before
its operation settles; `finish i` is call `i`'s operation body settling
(the timer, if still pending, is cleared; if the timer already fired the
late result is discarded); `shutdown` is `gracefulShutdown` flipping
`isShuttingDown` and draining the queue with rejections. -/
inductive Ev where
  | submit (i : Nat)
  | fireTimeout (i : Nat)
  | finish (i : Nat)
  | shutdown

/-- One step of the governor.  Each branch mirrors the JavaScript line by
line: on submit, a shutting-down governor throws, a full governor parks
the caller in `requestQueue`, otherwise `activeRequests++` and the body
starts; on timeout, the caller is rejected and `activeRequests--` (the
queue-splice in the handler never matches, since the parked promises use
different resolver functions, so it is dead code and not modelled); on
finish, the `finally` block runs `activeRequests--` once more — a SECOND
decrement when the timer fired earlier — and wakes the queue head, whose
re-entry into `processWithTimeout` re-checks the shutdown flag and the
cap (re-parking appends at the back). -/
def govStep (s : GovState) : Ev → GovState
  | .submit i =>
    let op := s.ops i
    if op.submitted = true then s
    else if s.isShuttingDown = true then
      { s with ops := updOp s.ops i { op with submitted := true, outcome := .shutdownErr } }
    else if REQUEST_QUEUE_SIZE ≤ s.activeRequests then
      { s with queue := s.queue ++ [i],
               ops := updOp s.ops i { op with submitted := true } }
    else
      { s with activeRequests := s.activeRequests + 1,
               ops := updOp s.ops i { op with submitted := true, started := true } }
  | .fireTimeout i =>
    let op := s.ops i
    if op.started = true ∧ op.finished = false ∧ op.outcome = .pending then
      { s with activeRequests := s.activeRequests - 1,
               ops := updOp s.ops i { op with outcome := .timedOutErr } }
    else s
  | .finish i =>
    let op := s.ops i
    if op.started = true ∧ op.finished = false then
      let newOutcome := if op.outcome = .pending then Outcome.ok else op.outcome
      let s1 : GovState :=
        { s with activeRequests := s.activeRequests - 1,
                 ops := updOp s.ops i { op with finished := true, outcome := newOutcome } }
      match s1.queue with
      | [] => s1
      | j :: rest =>
        let s2 : GovState := { s1 with queue := rest }
        let opj := s2.ops j
        if s2.isShuttingDown = true then
          { s2 with ops := updOp s2.ops j { opj with outcome := .shutdownErr } }
        else if REQUEST_QUEUE_SIZE ≤ s2.activeRequests then
          { s2 with queue := rest ++ [j] }
        else
          { s2 with activeRequests := s2.activeRequests + 1,
                    ops := updOp s2.ops j { opj with started := true } }
    else s
  | .shutdown =>
    if s.isShuttingDown = true then s
    else
      { s with isShuttingDown := true, queue := [],
               ops := fun j =>
                 if s.queue.contains j then { s.ops j with outcome := .shutdownErr }
                 else s.ops j }

/-- Run a list of events. -/
def govRun (s : GovState) (evs : List Ev) : GovState :=
  evs.foldl govStep s

/-- The concrete trace refuting the concurrency bound: call 0 is admitted,
times out, and later finishes (its slot is decremented twice, leaving the
counter at −1); then six fresh calls arrive while no operation holds a
slot. -/
def overAdmitTrace : List Ev :=
  [.submit 0, .fireTimeout 0, .finish 0,
   .submit 1, .submit 2, .submit 3, .submit 4, .submit 5, .submit 6]

/-- Capacity `MAX_PROCESSED_IDS` of the dedup cache. -/
def MAX_PROCESSED_IDS : Nat := 1000

/-- One message through the dedup guard: JavaScript `Set` iteration is
insertion order, so the cache is the list of ids oldest-first; a known id
is skipped, an unknown id is appended and, when the size then exceeds the
capacity, the first-inserted id is deleted.  Returns (skipped?, cache). -/
def dedupStep (cache : List Nat) (m : Nat) : Bool × List Nat :=
  if cache.contains m then (true, cache)
  else
    let c := cache ++ [m]
    (false, if MAX_PROCESSED_IDS < c.length then c.tail else c)

/-- Run the dedup guard over a message trace, recording for each message
whether it was skipped. -/
def dedupRun (cache : List Nat) : List Nat → List (Nat × Bool) × List Nat
  | [] => ([], cache)
  | m :: ms =>
    let r := dedupStep cache m
    let rest := dedupRun r.2 ms
    ((m, r.1) :: rest.1, rest.2)

/-- How many times message id `x` is actually resolved (processed, not
skipped) over a trace starting from an empty cache. -/
def resolutionsOf (x : Nat) (msgs : List Nat) : Nat :=
  (((dedupRun [] msgs).1).filter (fun p => p.1 == x && p.2 == false)).length

/-- Modelled from the spec: the fuzzy stage's fetch as the spec words it —
"up to N most-recent knowledge entries" (N = 100), i.e. the recency-sorted
store truncated, where the code issues `limit(100)` with no ordering. -/
def specFuzzyFetch (store : List KBEntry) : List KBEntry :=
  (sortCreatedDesc store).take 100

/-- Modelled from the spec: the fuzzy winner over the spec's most-recent
fetch, with the code's scoring, threshold and stable selection. -/
def specFuzzyWinner (store : List KBEntry) (q : String) : Option (KBEntry × Score) :=
  (insSortD rowGt
    (((specFuzzyFetch store).map (fun e => (e, codeScore q e))).filter
      (fun r => !(q.length == 0 && r.1.question.length == 0) &&
        Score.blt (Score.div 3 10) r.2))).head?

/-- Store with a single row whose question carries a trailing space. -/
def c2Store : List KBEntry :=
  [⟨"hi ", some "yo", none, 0⟩]

/-- Store holding the spec's scenario-1 row: question `hello`, answer `Hi!`. -/
def c2WitnessStore : List KBEntry :=
  [⟨"hello", some "Hi!", none, 0⟩]

/-- Candidate row for the scorer comparison. -/
def c3Entry : KBEntry :=
  ⟨"abc zzz", some "", none, 0⟩

/-- Store whose only row the synonym stage (key `hello`) would find. -/
def c6Store : List KBEntry :=
  [⟨"hello there", some "greetings!", none, 0⟩]

/-- Store whose only row contains the canonical key `hello`. -/
def c7Store : List KBEntry :=
  [⟨"say hello", some "hiya", none, 0⟩]

/-- The most recently created row of the 101-row store: the only row that
scores above threshold for the query of the recency counterexample. -/
def c8Entry : KBEntry :=
  ⟨"alpha beta gamma", some "FOUND", none, 100⟩

/-- A store of 101 rows in insertion (table) order: 100 old filler rows, then one new
relevant row.  The code's `limit(100)` without ordering fetches only the
fillers; a most-recent-first fetch would include the new row. -/
def c8BigStore : List KBEntry :=
  ((List.range 100).map (fun i => ⟨"zzzzzz", some "x", none, i⟩)) ++ [c8Entry]

/-- Query for the recency counterexample. -/
def c8Query : String :=
  "alpha beta gamma delta"

/-- One-row store for exercising the fuzzy selection theorem. -/
def c8SmallStore : List KBEntry :=
  [⟨"alpha beta", some "A", none, 0⟩]

/-- The winning row of the fuzzy stage on the one-row store. -/
def c8SmallWinner : KBEntry × Score :=
  (fuzzyWinner c8SmallStore "alpha beta something").getD (⟨"", none, none, 0⟩, Score.ofInt 0)

/-- A shutting-down governor state with empty queue and fresh call table. -/
def govShutState : GovState :=
  { activeRequests := 0, isShuttingDown := true, queue := [], ops := fun _ => freshOp }

/-- A running governor state with one parked call. -/
def govQueuedState : GovState :=
  { activeRequests := 5, isShuttingDown := false, queue := [7], ops := fun _ => freshOp }

/-- A running governor state with one admitted, still-running call 0. -/
def govActiveState : GovState :=
  { activeRequests := 1, isShuttingDown := false, queue := [],
    ops := fun j => if j = 0 then ⟨true, true, false, .pending⟩ else freshOp }

set_option maxRecDepth 40000

/-- A true continuation at the full suffix makes `pctScan` true. -/
theorem pctScan_of_k (k : List Char → Bool) (s : List Char) (h : k s = true) :
    pctScan k s = true := by
  cases s with
  | nil => simpa [pctScan] using h
  | cons c s' => simp [pctScan, h]

/-- A lower-cased copy of a string `ILIKE`-matches the string itself. -/
theorem ilike_lower_self (l : List Char) : ilikeRun (l.map Char.toLower) l = true := by
  induction l with
  | nil => rfl
  | cons c l ih =>
    show ilikeRun (c.toLower :: l.map Char.toLower) (c :: l) = true
    by_cases hp : c.toLower = '%'
    · rw [ilikeRun, if_pos hp]
      show (ilikeRun (l.map Char.toLower) (c :: l) ||
        pctScan (ilikeRun (l.map Char.toLower)) l) = true
      rw [pctScan_of_k _ _ ih, Bool.or_true]
    · by_cases hu : c.toLower = '_'
      · rw [ilikeRun, if_neg hp, if_pos hu]
        exact ih
      · rw [ilikeRun, if_neg hp, if_neg hu]
        simp [ih]

/-- String version of `ilike_lower_self`. -/
theorem ilike_lower_self_str (s : String) : ilikeRun (jsToLower s).data s.data = true :=
  ilike_lower_self s.data

/-- Lemma: `find?` skips a prefix on which the predicate fails. -/
theorem find?_append_of_forall_false {α : Type} (p : α → Bool) (pre l : List α)
    (h : ∀ x ∈ pre, p x = false) : List.find? p (pre ++ l) = List.find? p l := by
  induction pre with
  | nil => rfl
  | cons a as ih =>
    have ha : p a = false := h a (by simp)
    simp only [List.cons_append, List.find?, ha]
    exact ih (fun x hx => h x (by simp [hx]))

/-- Value of `Score.ofInt` is the integer. -/
theorem scoreToRat_ofInt (k : Int) : scoreToRat (Score.ofInt k) = (k : ℚ) := by
  simp [scoreToRat, Score.ofInt]

/-- Value of `Score.div` is the rational quotient (also at `b = 0`,
where both sides are zero). -/
theorem scoreToRat_div (a b : Int) (hb : 0 ≤ b) :
    scoreToRat (Score.div a b) = (a : ℚ) / (b : ℚ) := by
  unfold Score.div
  split_ifs with h
  · rfl
  · have hb0 : b = 0 := by omega
    simp [scoreToRat, hb0]

/-- Lemma: `Score.add` is addition of values. -/
theorem scoreToRat_add (x y : Score) :
    scoreToRat (x.add y) = scoreToRat x + scoreToRat y := by
  have hx : ((x.d : ℚ)) ≠ 0 := by
    have := x.dpos
    exact_mod_cast this.ne'
  have hy : ((y.d : ℚ)) ≠ 0 := by
    have := y.dpos
    exact_mod_cast this.ne'
  simp only [scoreToRat, Score.add]
  push_cast
  field_simp

/-- Lemma: `Score.mul` is multiplication of values. -/
theorem scoreToRat_mul (x y : Score) :
    scoreToRat (x.mul y) = scoreToRat x * scoreToRat y := by
  simp only [scoreToRat, Score.mul]
  push_cast
  rw [div_mul_div_comm]

/-- Lemma: `Score.oneSub` is `1 - x` on values. -/
theorem scoreToRat_oneSub (x : Score) : scoreToRat x.oneSub = 1 - scoreToRat x := by
  have hx : ((x.d : ℚ)) ≠ 0 := by
    have := x.dpos
    exact_mod_cast this.ne'
  simp only [scoreToRat, Score.oneSub]
  push_cast
  rw [sub_div, div_self hx]

/-- Lemma: `Score.blt` decides strict value comparison. -/
theorem scoreBlt_iff (x y : Score) : Score.blt x y = true ↔ scoreToRat x < scoreToRat y := by
  have hx : (0 : ℚ) < (x.d : ℚ) := by exact_mod_cast x.dpos
  have hy : (0 : ℚ) < (y.d : ℚ) := by exact_mod_cast y.dpos
  unfold Score.blt scoreToRat
  rw [decide_eq_true_iff, div_lt_div_iff₀ hx hy]
  constructor
  · intro h
    exact_mod_cast h
  · intro h
    exact_mod_cast h

/-- Lemma: `Score.beq` decides value equality. -/
theorem scoreBeq_iff (x y : Score) : Score.beq x y = true ↔ scoreToRat x = scoreToRat y := by
  have hx : ((x.d : ℚ)) ≠ 0 := by
    have := x.dpos
    exact_mod_cast this.ne'
  have hy : ((y.d : ℚ)) ≠ 0 := by
    have := y.dpos
    exact_mod_cast this.ne'
  unfold Score.beq scoreToRat
  rw [decide_eq_true_iff, div_eq_div_iff hx hy]
  constructor
  · intro h
    exact_mod_cast h
  · intro h
    exact_mod_cast h

/-- C3 counterexample: for query `abcd` against candidate question
`abc zzz` with empty answer, the score the code computes differs from the
spec's table (the code gives the starts-with signal value 0.8 instead of
1, and divides the word overlap by the larger token count instead of the
query token count). -/
theorem matchscore_signal_counterexample :
    scoreToRat (codeScore "abcd" c3Entry) ≠ scoreToRat (specMatchScore "abcd" c3Entry) := by
  intro h
  have hb : Score.beq (codeScore "abcd" c3Entry) (specMatchScore "abcd" c3Entry) = true :=
    (scoreBeq_iff _ _).mpr h
  rw [show Score.beq (codeScore "abcd" c3Entry) (specMatchScore "abcd" c3Entry) = false
    from by decide] at hb
  exact Bool.false_ne_true hb

/-- C3 (amended): the match score is the weighted sum of the six signals
with weights 3 / 2 / 1.5 / 1 / 0.5 / 0.3, where the starts-with, ends-with
and answer-contains signals take values 0.8, 0.6 and 0.5 when they fire
(effective contributions 1.2, 0.6 and 0.15), and the word-overlap fraction
is the number of query tokens of length > 2 partially matching candidate
tokens divided by the LARGER of the two token counts: the code's score
equals this amended formula on every query and candidate. -/
theorem matchscore_amended (q : String) (item : KBEntry) :
    scoreToRat (codeScore q item) = scoreToRat (amendedMatchScore q item) := by
  simp only [codeScore, amendedMatchScore]
  simp only [scoreToRat_add, scoreToRat_mul]
  ring

/-- C2 counterexample: the stored question `hi ` (trailing space) equals
the query `HI ` case-insensitively, yet resolution answers through the
FUZZY stage, not the exact stage, because the code trims the query before
the `ILIKE` comparison while the stored question keeps its whitespace. -/
theorem exact_stage_trim_counterexample :
    jsToLower "HI " = jsToLower "hi " ∧
    enhancedFindAnswer true c2Store noFaults none false "HI " =
      (.knowledge_base .fuzzy, "yo") ∧
    (enhancedFindAnswer true c2Store noFaults none false "HI ").1 ≠
      Source.knowledge_base Stage.exact := by
  refine ⟨by decide, by decide, by decide⟩

/-- C2 (amended): if the TRIMMED query equals a stored question
case-insensitively, every earlier row fails the `ILIKE` comparison
against the trimmed lowered query (the first hit wins under `limit(1)`),
and that row's `answer || content` is a non-empty string `t`, then
kb-first resolution returns source `exact` with text `t` — regardless of
the LLM collaborator. -/
theorem exact_stage_amended (pre post : List KBEntry) (e : KBEntry) (query t : String)
    (hpre : ∀ x ∈ pre, ilikeMatches (jsToLower (jsTrim query)) x.question = false)
    (heq : jsToLower (jsTrim query) = jsToLower e.question)
    (ht : jsOrStr e.answer e.content = some t) (hne : t ≠ "") (groq : Option String) :
    findInSupabase true noFaults (pre ++ e :: post) query = some (.exact, t) ∧
    enhancedFindAnswer true (pre ++ e :: post) noFaults groq false query =
      (.knowledge_base .exact, t) := by
  have hm : ilikeMatches (jsToLower (jsTrim query)) e.question = true := by
    unfold ilikeMatches
    rw [heq]
    exact ilike_lower_self_str e.question
  have hfind :
      List.find? (fun x => ilikeMatches (jsToLower (jsTrim query)) x.question)
        (pre ++ e :: post) = some e := by
    rw [find?_append_of_forall_false _ _ _ hpre]
    simp [List.find?, hm]
  have hstage : exactStage (pre ++ e :: post) (jsToLower (jsTrim query)) = .found t := by
    unfold exactStage
    rw [hfind]
    simp [ht]
  have h1 : findInSupabase true noFaults (pre ++ e :: post) query = some (.exact, t) := by
    simp [findInSupabase, noFaults, hstage]
  refine ⟨h1, ?_⟩
  simp [enhancedFindAnswer, h1, hne]

/-- Witness for `exact_stage_amended`: the spec's scenario 1 — store has
question `hello`, answer `Hi!`; query `HELLO` resolves to the exact stage. -/
theorem exact_stage_amended_witness :
    jsToLower (jsTrim "HELLO") = jsToLower "hello" ∧
    findInSupabase true noFaults c2WitnessStore "HELLO" = some (.exact, "Hi!") ∧
    enhancedFindAnswer true c2WitnessStore noFaults none false "HELLO" =
      (.knowledge_base .exact, "Hi!") := by
  have h := exact_stage_amended [] [] ⟨"hello", some "Hi!", none, 0⟩ "HELLO" "Hi!"
    (by intro x hx; cases hx) (by decide) (by decide) (by decide) none
  exact ⟨by decide, h.1, h.2⟩

/-- C6 counterexample: with a store failure injected into the exact stage
only, the query `hi` (which the synonym stage would resolve through key
`hello` to the stored row) produces NO knowledge-base result at all — the
exact-stage `throw` lands in the function-wide catch and aborts every
later stage, instead of advancing to the synonym stage. -/
theorem store_failure_exact_stage_counterexample :
    findInSupabase true ⟨true, false, false, false⟩ c6Store "hi" = none ∧
    findInSupabase true noFaults c6Store "hi" = some (.synonym, "greetings!") := by
  refine ⟨by decide, by decide⟩

/-- C6 (amended): a knowledge-store failure at the synonym, fuzzy or
content stage is absorbed as "stage produced no match" and the pipeline
still reports the exact stage's verdict; but a failure at the EXACT stage
is caught by the function-wide handler, which aborts every knowledge-base
stage and reports no match (resolution then falls through to the LLM and
default stages). -/
theorem store_failure_amended :
    (∀ (supaOn : Bool) (f : Faults) (store : List KBEntry) (query : String),
      f.exactFails = true → findInSupabase supaOn f store query = none) ∧
    (∀ (store : List KBEntry) (query : String),
      findInSupabase true ⟨false, true, true, true⟩ store query =
        exactStageResult store query) := by
  constructor
  · intro supaOn f store query hf
    cases supaOn with
    | false => simp [findInSupabase]
    | true => simp [findInSupabase, hf]
  · intro store query
    unfold findInSupabase exactStageResult
    cases h : exactStage store (jsToLower (jsTrim query)) with
    | noMatch => simp [h]
    | nullReturn => simp [h]
    | found t => simp [h]

/-- Witness for `store_failure_amended` at concrete inputs. -/
theorem store_failure_amended_witness :
    findInSupabase true ⟨true, false, false, false⟩ c6Store "hi" = none ∧
    findInSupabase true ⟨false, true, true, true⟩ c6Store "hi" =
      exactStageResult c6Store "hi" :=
  ⟨store_failure_amended.1 true ⟨true, false, false, false⟩ c6Store "hi" rfl,
   store_failure_amended.2 c6Store "hi"⟩

/-- If no map entry triggers for `q`, the synonym loop finds nothing. -/
theorem synGo_noMatch_of_no_trigger (store : List KBEntry) (q : String)
    (L : List (String × List String))
    (h : ∀ p ∈ L, (p.2.contains q || strIncludes q p.1) = false) :
    synGo store q L = .noMatch := by
  induction L with
  | nil => rfl
  | cons p rest ih =>
    obtain ⟨k, syns⟩ := p
    have hp : (syns.contains q || strIncludes q k) = false := h (k, syns) (by simp)
    unfold synGo
    rw [hp]
    simp only [Bool.false_eq_true, if_false]
    exact ih (fun x hx => h x (by simp [hx]))

/-- If some map entry triggers for `q` and its re-query hits the store,
the synonym loop yields a result (a found answer or a null `return`). -/
theorem synGo_hit_of_trigger (store : List KBEntry) (q : String)
    (L : List (String × List String)) (k : String) (syns : List String)
    (hmem : (k, syns) ∈ L) (htrig : (syns.contains q || strIncludes q k) = true)
    (hhit : (store.find? (fun e => ilikeMatches ("%" ++ k ++ "%") e.question)).isSome = true) :
    synGo store q L ≠ .noMatch := by
  induction L with
  | nil => cases hmem
  | cons p rest ih =>
    obtain ⟨k', syns'⟩ := p
    unfold synGo
    by_cases ht : (syns'.contains q || strIncludes q k') = true
    · rw [if_pos ht]
      cases hf : store.find? (fun e => ilikeMatches ("%" ++ k' ++ "%") e.question) with
      | some e =>
        cases ha : e.answer with
        | some a => simp [ha]
        | none => simp [ha]
      | none =>
        rcases List.mem_cons.mp hmem with hhd | htl
        · exfalso
          have hk : k' = k := congrArg Prod.fst hhd.symm
          rw [hk] at hf
          rw [hf] at hhit
          exact Bool.false_ne_true hhit
        · exact ih htl
    · rw [if_neg ht]
      rcases List.mem_cons.mp hmem with hhd | htl
      · exfalso
        apply ht
        have h1 : k' = k := congrArg Prod.fst hhd.symm
        have h2 : syns' = syns := congrArg Prod.snd hhd.symm
        rw [h1, h2]
        exact htrig
      · exact ih htl

/-- C7 counterexample: the query `hi there my good friend` contains the
synonym VALUE `hi there` (of key `hello`), so the claim's trigger fires
and the re-query `%hello%` would hit the stored row — but the code's
trigger (exact membership among synonyms, or query-contains-KEY, which is
neither) does not fire and resolution finds nothing at all. -/
theorem synonym_trigger_counterexample :
    specSynTrigger "hi there my good friend" = true ∧
    codeSynTrigger "hi there my good friend" = false ∧
    (c7Store.find? (fun e => ilikeMatches "%hello%" e.question)).isSome = true ∧
    findInSupabase true noFaults c7Store "hi there my good friend" = none := by
  refine ⟨by decide, by decide, by decide, by decide⟩

/-- C7 (amended): the synonym stage triggers exactly when the query is
EQUAL to one of an entry's synonym values or the query CONTAINS the
entry's canonical key; when no entry triggers the stage yields nothing,
and when some triggering entry's `%key%` re-query hits the store the
stage yields a result (first triggering entry with a hit wins). -/
theorem synonym_trigger_amended :
    (∀ (q : String) (store : List KBEntry),
      codeSynTrigger q = false → synStage store q = .noMatch) ∧
    (∀ (q k : String) (syns : List String) (store : List KBEntry),
      (k, syns) ∈ SYNONYM_MAP → (syns.contains q || strIncludes q k) = true →
      (store.find? (fun e => ilikeMatches ("%" ++ k ++ "%") e.question)).isSome = true →
      synStage store q ≠ .noMatch) := by
  constructor
  · intro q store h
    apply synGo_noMatch_of_no_trigger
    intro p hp
    by_contra hne
    have : (p.2.contains q || strIncludes q p.1) = true := by
      cases hb : (p.2.contains q || strIncludes q p.1) with
      | true => rfl
      | false => exact absurd hb hne
    have : codeSynTrigger q = true := by
      unfold codeSynTrigger
      exact List.any_eq_true.mpr ⟨p, hp, this⟩
    rw [h] at this
    exact Bool.false_ne_true this
  · intro q k syns store hmem htrig hhit
    exact synGo_hit_of_trigger store q SYNONYM_MAP k syns hmem htrig hhit

/-- Witness for `synonym_trigger_amended` at concrete inputs. -/
theorem synonym_trigger_amended_witness :
    synStage [] "zebra" = .noMatch ∧ synStage c6Store "hello yes" ≠ .noMatch :=
  ⟨synonym_trigger_amended.1 "zebra" [] (by decide),
   synonym_trigger_amended.2 "hello yes" "hello"
     ["hi", "hey", "hi there", "hello there", "howdy", "greetings", "yo", "sup"] c6Store
     (by decide) (by decide) (by decide)⟩

/-- String append acts as list append on the character data. -/
theorem string_data_append (a b : String) : (a ++ b).data = a.data ++ b.data :=
  rfl

/-- A substring of the suffix is a substring of the whole. -/
theorem charsSub_append_right (sub t s : List Char) (h : charsSub sub t = true) :
    charsSub sub (s ++ t) = true := by
  induction s with
  | nil => simpa using h
  | cons c cs ih =>
    show charsSub sub (c :: (cs ++ t)) = true
    unfold charsSub
    rw [ih, Bool.or_true]

/-- Lemma: `includes` through a right append. -/
theorem strIncludes_append_right (s t sub : String)
    (h : charsSub sub.data t.data = true) : strIncludes (s ++ t) sub = true := by
  unfold strIncludes
  rw [string_data_append]
  exact charsSub_append_right _ _ _ h

/-- C10: the default stage's text is a function of the query alone — the
asynchronous suggestion lookup is used without `await`, so the store
never influences the output, and the appended related-topics section is
always present with the string rendering of the pending promise,
`[object Promise]`, identical for all store contents. -/
theorem default_response_promise_bug :
    (∀ (store store' : List KBEntry) (query : String),
      getDefaultResponse store query = getDefaultResponse store' query) ∧
    (∀ (store : List KBEntry) (query : String),
      strIncludes (getDefaultResponse store query)
        "**Related topics:** [object Promise]" = true) := by
  constructor
  · intro store store' query
    rfl
  · intro store query
    unfold getDefaultResponse
    apply strIncludes_append_right
    simp only [jsPromiseTruthy, jsPromiseToString, if_true]
    decide

/-- Insertion never yields the empty list. -/
theorem insertD_ne_nil {α : Type} (gt : α → α → Bool) (x : α) (l : List α) :
    insertD gt x l ≠ [] := by
  cases l with
  | nil => simp [insertD]
  | cons y ys =>
    unfold insertD
    split_ifs <;> simp

/-- An empty sort comes from an empty list. -/
theorem insSortD_eq_nil {α : Type} (gt : α → α → Bool) (l : List α)
    (h : insSortD gt l = []) : l = [] := by
  cases l with
  | nil => rfl
  | cons x xs => exact absurd h (insertD_ne_nil gt x _)

/-- The head of the stable descending sort is a maximum-score element
whose earlier neighbours in the ORIGINAL list all score strictly less —
i.e. the earliest maximum (ties keep original order). -/
theorem sortD_head_max (l : List (KBEntry × Score)) (w : KBEntry × Score)
    (h : (insSortD rowGt l).head? = some w) :
    ∃ pre post, l = pre ++ w :: post ∧
      (∀ r ∈ l, scoreToRat r.2 ≤ scoreToRat w.2) ∧
      (∀ r ∈ pre, scoreToRat r.2 < scoreToRat w.2) := by
  induction l generalizing w with
  | nil => simp [insSortD] at h
  | cons x xs ih =>
    rw [show insSortD rowGt (x :: xs) = insertD rowGt x (insSortD rowGt xs) from rfl] at h
    cases hxs : insSortD rowGt xs with
    | nil =>
      have hx : xs = [] := insSortD_eq_nil _ _ hxs
      rw [hxs] at h
      have hw : w = x := by
        simp [insertD] at h
        exact h.symm
      subst hw
      subst hx
      refine ⟨[], [], by simp, ?_, by simp⟩
      intro r hr
      have : r = w := by simpa using hr
      rw [this]
    | cons z zs =>
      have hz : (insSortD rowGt xs).head? = some z := by rw [hxs]; rfl
      obtain ⟨pre, post, hsplit, hle, hlt⟩ := ih z hz
      rw [hxs] at h
      unfold insertD at h
      by_cases hcmp : rowGt z x = true
      · rw [if_pos hcmp] at h
        have hw : w = z := by simpa using h.symm
        subst hw
        have hxw : scoreToRat x.2 < scoreToRat w.2 := (scoreBlt_iff x.2 w.2).mp hcmp
        refine ⟨x :: pre, post, by simp [hsplit], ?_, ?_⟩
        · intro r hr
          rcases List.mem_cons.mp hr with h1 | h2
          · rw [h1]
            exact le_of_lt hxw
          · exact hle r h2
        · intro r hr
          rcases List.mem_cons.mp hr with h1 | h2
          · rw [h1]
            exact hxw
          · exact hlt r h2
      · rw [if_neg hcmp] at h
        have hw : w = x := by simpa using h.symm
        subst hw
        have hzw : scoreToRat z.2 ≤ scoreToRat w.2 := by
          have hb : Score.blt w.2 z.2 ≠ true := hcmp
          have : ¬ scoreToRat w.2 < scoreToRat z.2 := fun hc =>
            hb ((scoreBlt_iff w.2 z.2).mpr hc)
          exact le_of_not_lt this
        refine ⟨[], xs, by simp, ?_, by simp⟩
        intro r hr
        rcases List.mem_cons.mp hr with h1 | h2
        · rw [h1]
        · exact le_trans (hle r h2) hzw

/-- C8 counterexample: on a 101-row store whose only above-threshold row
for the query is the MOST RECENT one, the spec's most-recent fetch keeps
that row and its fuzzy selection returns it, but the code's unordered
`limit(100)` fetch misses it and the whole resolution finds nothing. -/
theorem fuzzy_fetch_recency_counterexample :
    c8Entry ∈ specFuzzyFetch c8BigStore ∧
    c8Entry ∉ fuzzyFetch c8BigStore ∧
    (specFuzzyWinner c8BigStore c8Query).map Prod.fst = some c8Entry ∧
    findInSupabase true noFaults c8BigStore c8Query = none := by
  refine ⟨by decide, by decide, by decide, by decide⟩

/-- C8 (amended): the fuzzy stage fetches the first 100 rows in store
(table) order — NOT the most recent ones — keeps exactly those scoring
strictly above the 0.3 threshold, and returns the kept row of maximum
score, ties broken by original store order: whenever the stage returns a
winner, the winner is a kept row that every kept row scores at most as
high as, and every kept row listed before it scores strictly less. -/
theorem fuzzy_selection_amended (store : List KBEntry) (q : String) (w : KBEntry × Score)
    (h : fuzzyWinner store q = some w) :
    (∃ pre post, keptRows store q = pre ++ w :: post ∧
      (∀ r ∈ keptRows store q, scoreToRat r.2 ≤ scoreToRat w.2) ∧
      (∀ r ∈ pre, scoreToRat r.2 < scoreToRat w.2)) ∧
    (∀ r ∈ keptRows store q, (3 : ℚ)/10 < scoreToRat r.2) := by
  constructor
  · exact sortD_head_max _ _ h
  · intro r hr
    have hmem := List.mem_filter.mp hr
    have h2 : Score.blt (Score.div 3 10) r.2 = true := by
      have hb := hmem.2
      simp only [Bool.and_eq_true] at hb
      exact hb.2
    have h3 := (scoreBlt_iff _ _).mp h2
    have h4 : scoreToRat (Score.div 3 10) = (3 : ℚ)/10 := by
      rw [scoreToRat_div 3 10 (by norm_num)]
      norm_num
    rw [h4] at h3
    exact h3

/-- Witness for `fuzzy_selection_amended` on a one-row store. -/
theorem fuzzy_selection_amended_witness :
    fuzzyWinner c8SmallStore "alpha beta something" = some c8SmallWinner ∧
    (∀ r ∈ keptRows c8SmallStore "alpha beta something", (3 : ℚ)/10 < scoreToRat r.2) :=
  ⟨rfl, (fuzzy_selection_amended c8SmallStore "alpha beta something" c8SmallWinner rfl).2⟩

/-- Splitting a dedup run at a trace boundary. -/
theorem dedupRun_append (ms ns : List Nat) (cache : List Nat) :
    dedupRun cache (ms ++ ns) =
      ((dedupRun cache ms).1 ++ (dedupRun (dedupRun cache ms).2 ns).1,
       (dedupRun (dedupRun cache ms).2 ns).2) := by
  induction ms generalizing cache with
  | nil => simp [dedupRun]
  | cons m ms ih =>
    simp only [List.cons_append, dedupRun, List.append_eq]
    rw [ih]

/-- The processed log lists exactly the trace ids, in order. -/
theorem dedupRun_map_fst (ms : List Nat) (cache : List Nat) :
    ((dedupRun cache ms).1).map Prod.fst = ms := by
  induction ms generalizing cache with
  | nil => rfl
  | cons m ms ih => simp [dedupRun, ih]

/-- A log whose ids all differ from `x` contributes nothing to `x`'s
resolution count. -/
theorem filter_fst_ne (x : Nat) (pairs : List (Nat × Bool))
    (h : ∀ p ∈ pairs, p.1 ≠ x) :
    pairs.filter (fun p => p.1 == x && p.2 == false) = [] := by
  induction pairs with
  | nil => rfl
  | cons p ps ih =>
    have hp : (p.1 == x) = false := by
      simpa using h p (by simp)
    simp only [List.filter_cons, hp, Bool.false_and, Bool.false_eq_true, if_false]
    exact ih (fun q hq => h q (by simp [hq]))

/-- While the number of distinct ids seen stays within the capacity, the
dedup cache never evicts: it stays duplicate-free and ends up holding
exactly the old ids plus the trace ids. -/
theorem dedup_no_evict (ms : List Nat) (cache : List Nat) (hnd : cache.Nodup)
    (hcard : (cache.toFinset ∪ ms.toFinset).card ≤ MAX_PROCESSED_IDS) :
    (dedupRun cache ms).2.Nodup ∧
    (dedupRun cache ms).2.toFinset = cache.toFinset ∪ ms.toFinset := by
  induction ms generalizing cache with
  | nil =>
    refine ⟨hnd, ?_⟩
    simp [dedupRun]
  | cons m ms ih =>
    by_cases hm : cache.contains m = true
    · have hmem : m ∈ cache := List.elem_iff.mp hm
      have hstep : dedupStep cache m = (true, cache) := by
        simp [dedupStep, hmem]
      have hcard' : (cache.toFinset ∪ ms.toFinset).card ≤ MAX_PROCESSED_IDS := by
        refine le_trans (Finset.card_le_card ?_) hcard
        intro a ha
        rcases Finset.mem_union.mp ha with h1 | h1
        · exact Finset.mem_union_left _ h1
        · refine Finset.mem_union_right _ ?_
          rw [List.toFinset_cons]
          exact Finset.mem_insert_of_mem h1
      obtain ⟨h1, h2⟩ := ih cache hnd hcard'
      simp only [dedupRun, hstep]
      refine ⟨h1, ?_⟩
      rw [h2, List.toFinset_cons]
      ext a
      simp only [Finset.mem_union, List.mem_toFinset, Finset.mem_insert]
      constructor
      · rintro (h | h)
        · exact Or.inl h
        · exact Or.inr (Or.inr h)
      · rintro (h | h | h)
        · exact Or.inl h
        · exact Or.inl (h ▸ hmem)
        · exact Or.inr h
    · have hmb : cache.contains m = false := by
        cases hc : cache.contains m with
        | true => exact absurd hc hm
        | false => rfl
      have hmem : m ∉ cache := fun hc => hm (List.elem_iff.mpr hc)
      have hcount : cache.toFinset.card + 1 ≤ MAX_PROCESSED_IDS := by
        have hsub : insert m cache.toFinset ⊆ cache.toFinset ∪ (m :: ms).toFinset := by
          intro a ha
          rcases Finset.mem_insert.mp ha with rfl | h1
          · refine Finset.mem_union_right _ ?_
            rw [List.toFinset_cons]
            exact Finset.mem_insert_self a _
          · exact Finset.mem_union_left _ h1
        have h1 : (insert m cache.toFinset).card = cache.toFinset.card + 1 :=
          Finset.card_insert_of_not_mem (by simpa using hmem)
        have h2 := le_trans (Finset.card_le_card hsub) hcard
        omega
      have hlen : cache.length = cache.toFinset.card :=
        (List.toFinset_card_of_nodup hnd).symm
      have hnoev : ¬ MAX_PROCESSED_IDS < cache.length + 1 := by
        omega
      have hstep : dedupStep cache m = (false, cache ++ [m]) := by
        simp [dedupStep, hmem, hnoev]
      have hnd' : (cache ++ [m]).Nodup := by
        rw [List.nodup_append]
        exact ⟨hnd, List.nodup_singleton m, by simpa using hmem⟩
      have hts : (cache ++ [m]).toFinset = insert m cache.toFinset := by
        ext a
        simp only [List.toFinset_append, Finset.mem_union, List.mem_toFinset,
          Finset.mem_insert, List.mem_singleton]
        tauto
      have hcard' : ((cache ++ [m]).toFinset ∪ ms.toFinset).card ≤ MAX_PROCESSED_IDS := by
        refine le_trans (le_of_eq (congrArg Finset.card ?_)) hcard
        rw [hts, List.toFinset_cons]
        ext a
        simp only [Finset.mem_union, Finset.mem_insert, List.mem_toFinset]
        tauto
      obtain ⟨h1, h2⟩ := ih (cache ++ [m]) hnd' hcard'
      simp only [dedupRun, hstep]
      refine ⟨h1, ?_⟩
      rw [h2, hts, List.toFinset_cons]
      ext a
      simp only [Finset.mem_union, Finset.mem_insert, List.mem_toFinset]
      tauto

/-- C9: (a) a message id submitted twice, with no more distinct ids in
between than the capacity M = 1000 admits, is resolved exactly once — the
second submission is skipped; (b) inserting a fresh id into a cache at
capacity evicts exactly the OLDEST-inserted id (the head of the
insertion-ordered cache). -/
theorem dedup_guard_spec :
    (∀ (x : Nat) (mid : List Nat), x ∉ mid →
      (x :: mid).toFinset.card ≤ MAX_PROCESSED_IDS →
      resolutionsOf x ((x :: mid) ++ [x]) = 1) ∧
    (∀ (cache : List Nat) (x : Nat), cache.length = MAX_PROCESSED_IDS →
      x ∉ cache → dedupStep cache x = (false, cache.tail ++ [x])) := by
  constructor
  · intro x mid hxm hcard
    unfold resolutionsOf
    rw [dedupRun_append (x :: mid) [x] []]
    have hstep0 : dedupStep [] x = (false, [x]) := by
      simp [dedupStep, MAX_PROCESSED_IDS]
    have hfront : dedupRun [] (x :: mid) =
        ((x, false) :: (dedupRun [x] mid).1, (dedupRun [x] mid).2) := by
      simp only [dedupRun, hstep0]
    have hcard1 : (([x] : List Nat).toFinset ∪ mid.toFinset).card ≤ MAX_PROCESSED_IDS := by
      refine le_trans (le_of_eq (congrArg Finset.card ?_)) hcard
      ext a
      simp [List.mem_cons]
    have hne := dedup_no_evict mid [x] (List.nodup_singleton x) hcard1
    have hx2 : x ∈ (dedupRun [x] mid).2 := by
      rw [← List.mem_toFinset, hne.2]
      exact Finset.mem_union_left _ (by simp)
    have hstep2 : dedupStep (dedupRun [x] mid).2 x = (true, (dedupRun [x] mid).2) := by
      simp [dedupStep, hx2]
    have hback : dedupRun (dedupRun [x] mid).2 [x] = ([(x, true)], (dedupRun [x] mid).2) := by
      simp only [dedupRun, hstep2]
    rw [hfront]
    simp only [hback]
    simp [List.filter_append, List.filter_cons]
    intro a ha heq
    apply hxm
    have hmem : (a, false).1 ∈ ((dedupRun [x] mid).1).map Prod.fst :=
      List.mem_map_of_mem _ ha
    rw [dedupRun_map_fst] at hmem
    exact heq ▸ hmem
  · intro cache x hlen hxc
    cases cache with
    | nil => simp [MAX_PROCESSED_IDS] at hlen
    | cons c cs =>
      have hlen' : cs.length + 1 = MAX_PROCESSED_IDS := by simpa using hlen
      have hg : MAX_PROCESSED_IDS < cs.length + 1 + 1 := by omega
      simp [dedupStep, hxc, hg]

/-- Witness for `dedup_guard_spec`: id 5 in the trace 5, 6, 7, 5 resolves
once, and a fresh id pushed into a full 1000-entry cache evicts the head. -/
theorem dedup_guard_spec_witness :
    resolutionsOf 5 ((5 :: [6, 7]) ++ [5]) = 1 ∧
    dedupStep (List.range 1000) 1000 = (false, (List.range 1000).tail ++ [1000]) :=
  ⟨dedup_guard_spec.1 5 [6, 7] (by decide) (by decide),
   dedup_guard_spec.2 (List.range 1000) 1000 (by decide) (by decide)⟩

/-- Once `isShuttingDown` is set, no event clears it. -/
theorem govStep_shutdown_flag (s : GovState) (e : Ev) (h : s.isShuttingDown = true) :
    (govStep s e).isShuttingDown = true := by
  cases e <;> simp only [govStep] <;> (repeat' split) <;> simp_all

/-- Once `isShuttingDown` is set, no event starts any operation body. -/
theorem govStep_started_of_shutdown (s : GovState) (e : Ev) (i : Nat)
    (h : s.isShuttingDown = true) :
    ((govStep s e).ops i).started = (s.ops i).started := by
  cases e <;> simp only [govStep] <;> (repeat' split) <;> simp_all [updOp] <;>
    (repeat' split) <;> simp_all

/-- C1 failing trace, evaluated: with cap `REQUEST_QUEUE_SIZE = 5`, after
one admitted call times out and its body later finishes (the counter is
decremented twice), six fresh submissions are ALL admitted immediately —
six operation bodies run concurrently, none queued, while the corrupted
counter reads 5. -/
theorem governor_overadmission_after_timeout :
    REQUEST_QUEUE_SIZE = 5 ∧
    (govRun govInit overAdmitTrace).activeRequests = 5 ∧
    (govRun govInit overAdmitTrace).queue = [] ∧
    ([1, 2, 3, 4, 5, 6].all (fun i =>
      ((govRun govInit overAdmitTrace).ops i).started &&
      !((govRun govInit overAdmitTrace).ops i).finished &&
      ((govRun govInit overAdmitTrace).ops i).outcome == .pending)) = true ∧
    (((govRun govInit overAdmitTrace).ops 0).outcome = .timedOutErr ∧
      ((govRun govInit overAdmitTrace).ops 0).finished = true) := by
  refine ⟨rfl, by decide, by decide, by decide, by decide, by decide⟩

/-- C4: after shutdown is initiated, (a) a new `processWithTimeout` call
is rejected with the shutting-down error and its operation body is not
started; (b) every call parked in the queue at the moment of shutdown is
rejected with that error when the queue is drained; (c) over ANY
subsequent event sequence, no operation body ever moves to started — no
operation admitted after shutdown initiation runs. -/
theorem governor_shutdown_rejection :
    (∀ (s : GovState) (i : Nat), s.isShuttingDown = true →
      (s.ops i).submitted = false →
      ((govStep s (.submit i)).ops i).outcome = .shutdownErr ∧
      ((govStep s (.submit i)).ops i).started = (s.ops i).started) ∧
    (∀ (s : GovState) (j : Nat), s.isShuttingDown = false → j ∈ s.queue →
      ((govStep s .shutdown).ops j).outcome = .shutdownErr) ∧
    (∀ (s : GovState) (evs : List Ev) (i : Nat), s.isShuttingDown = true →
      ((govRun s evs).ops i).started = (s.ops i).started) := by
  refine ⟨?_, ?_, ?_⟩
  · intro s i hsd hsub
    simp only [govStep, hsub, hsd]
    simp [updOp]
  · intro s j hsd hq
    simp only [govStep, hsd]
    simp [hq]
  · intro s evs i hsd
    induction evs generalizing s with
    | nil => rfl
    | cons e evs ih =>
      have h1 := govStep_started_of_shutdown s e i hsd
      have h2 := govStep_shutdown_flag s e hsd
      calc ((govRun (govStep s e) evs).ops i).started
          = ((govStep s e).ops i).started := ih (govStep s e) h2
        _ = (s.ops i).started := h1


/-- Witness for `governor_shutdown_rejection` at concrete states. -/
theorem governor_shutdown_rejection_witness :
    ((govStep govShutState (.submit 3)).ops 3).outcome = .shutdownErr ∧
    ((govStep govQueuedState .shutdown).ops 7).outcome = .shutdownErr ∧
    ((govRun govShutState [.submit 1, .submit 2, .finish 1]).ops 1).started =
      (govShutState.ops 1).started :=
  ⟨(governor_shutdown_rejection.1 govShutState 3 rfl rfl).1,
   governor_shutdown_rejection.2.1 govQueuedState 7 rfl (by decide),
   governor_shutdown_rejection.2.2 govShutState [.submit 1, .submit 2, .finish 1] 1 rfl⟩

/-- A submission to a non-full, non-shutting-down governor is admitted:
the operation body starts at once. -/
theorem govStep_submit_admits (s : GovState) (j : Nat)
    (hsub : (s.ops j).submitted = false) (hsd : s.isShuttingDown = false)
    (hcap : s.activeRequests < REQUEST_QUEUE_SIZE) :
    ((govStep s (.submit j)).ops j).started = true := by
  simp only [govStep, hsub, hsd, Bool.false_eq_true, if_false]
  rw [if_neg (not_le.mpr hcap)]
  simp [updOp]

/-- A running call whose caller already received the timeout error keeps
that outcome when its body finally finishes: the late result is
discarded. -/
theorem govStep_finish_discards (s : GovState) (i : Nat)
    (hs : (s.ops i).started = true) (hf : (s.ops i).finished = false)
    (ho : (s.ops i).outcome = .timedOutErr) (hq : i ∉ s.queue) :
    ((govStep s (.finish i)).ops i).outcome = .timedOutErr ∧
    ((govStep s (.finish i)).ops i).finished = true := by
  have hg : (s.ops i).started = true ∧ (s.ops i).finished = false := ⟨hs, hf⟩
  simp only [govStep, if_pos hg, ho]
  cases hqq : s.queue with
  | nil => simp [hqq, updOp]
  | cons j rest =>
    have hji : j ≠ i := by
      intro h
      apply hq
      rw [hqq, h]
      exact List.mem_cons_self i rest
    simp only [hqq]
    split
    · simp [updOp, Ne.symm hji]
    · split
      · simp [updOp]
      · simp [updOp, Ne.symm hji]

/-- C5: when an admitted operation's timer fires before its body settles,
the caller receives the timeout error while the body keeps running (the
operation is not cancelled); the slot is freed (`activeRequests` is
decremented); if the body later finishes, the caller's outcome is STILL
the timeout error — the late result is discarded; and a fresh submission
to the resulting governor (not shutting down, below the cap) is admitted
immediately, so the timeout does not block subsequent admissions. -/
theorem governor_timeout_semantics (s : GovState) (i : Nat)
    (hs : (s.ops i).started = true) (hf : (s.ops i).finished = false)
    (hp : (s.ops i).outcome = .pending) (hq : i ∉ s.queue) :
    ((govStep s (.fireTimeout i)).ops i).outcome = .timedOutErr ∧
    ((govStep s (.fireTimeout i)).ops i).started = true ∧
    ((govStep s (.fireTimeout i)).ops i).finished = false ∧
    (govStep s (.fireTimeout i)).activeRequests = s.activeRequests - 1 ∧
    (((govStep (govStep s (.fireTimeout i)) (.finish i)).ops i).outcome = .timedOutErr ∧
      ((govStep (govStep s (.fireTimeout i)) (.finish i)).ops i).finished = true) ∧
    (∀ j : Nat, ((govStep s (.fireTimeout i)).ops j).submitted = false →
      (govStep s (.fireTimeout i)).isShuttingDown = false →
      (govStep s (.fireTimeout i)).activeRequests < REQUEST_QUEUE_SIZE →
      ((govStep (govStep s (.fireTimeout i)) (.submit j)).ops j).started = true) := by
  have hguard : (s.ops i).started = true ∧ (s.ops i).finished = false ∧
      (s.ops i).outcome = .pending := ⟨hs, hf, hp⟩
  have hstep : govStep s (.fireTimeout i) =
      { s with activeRequests := s.activeRequests - 1,
               ops := updOp s.ops i { s.ops i with outcome := .timedOutErr } } := by
    simp only [govStep, if_pos hguard]
  have hops : (govStep s (.fireTimeout i)).ops i =
      { s.ops i with outcome := .timedOutErr } := by
    rw [hstep]
    simp [updOp]
  refine ⟨?_, ?_, ?_, ?_, ?_, ?_⟩
  · rw [hops]
  · rw [hops]
    exact hs
  · rw [hops]
    exact hf
  · rw [hstep]
  · refine govStep_finish_discards _ i ?_ ?_ ?_ ?_
    · rw [hops]
      exact hs
    · rw [hops]
      exact hf
    · rw [hops]
    · rw [hstep]
      exact hq
  · intro j hsub hsd hcap
    exact govStep_submit_admits _ j hsub hsd hcap

/-- Witness for `governor_timeout_semantics` at a concrete state with one
running call. -/
theorem governor_timeout_semantics_witness :
    ((govStep govActiveState (.fireTimeout 0)).ops 0).outcome = .timedOutErr ∧
    ((govStep (govStep govActiveState (.fireTimeout 0)) (.finish 0)).ops 0).outcome =
      .timedOutErr ∧
    ((govStep (govStep govActiveState (.fireTimeout 0)) (.submit 9)).ops 9).started = true := by
  have h := governor_timeout_semantics govActiveState 0 (by decide) (by decide)
    (by decide) (by decide)
  exact ⟨h.1, h.2.2.2.2.1.1, h.2.2.2.2.2 9 (by decide) (by decide) (by decide)⟩
